import Mathlib

/-!
Verification of the vibe-mapping shopping-assistant backend.

This file gives a shallow embedding, in Lean 4, of the core algorithms of the
backend (`app/services/tools.py`, `app/services/vibe_mapper.py`,
`app/services/product_service.py`, `app/services/agent_processor.py`) and
proves or refutes the frozen specification claims about them.

Modelling conventions:
* Python dicts with a fixed key set become structures; dicts used as maps
  become association lists (`List (String × _)`).
* Python `None`-able values become `Option`.
* Exceptions become `Except String _`; every `try/except` in the source is
  mirrored by an explicit `match` on the `Except` value.
* External collaborators (the Gemini LLM, the Supabase data store) are
  universally quantified stub functions at exactly the call boundary where
  the source awaits them.

The file is organised as: all definitions first, then all lemmas and
theorems.
-/

namespace VibeAgent

/-- Python's `str.lower()`, as used throughout the services. Modelled as a
character-wise lowercasing of the underlying character list (the source
data is ASCII). -/
def pyLower (s : String) : String :=
  String.mk (s.data.map Char.toLower)

/-- Python's substring test `needle in hay`, as used on lowercased strings
throughout the services. -/
def pyIn (needle hay : String) : Bool :=
  decide (needle.data <:+: hay.data)

/-! ## Tools layer (`app/services/tools.py`) -/

/-- Embeds `find_apparels` line `limit = min(max(1, limit or 20), 100)`.
`limit or 20` follows Python truthiness: `None` and `0` both fall back
to the default `20`. -/
def clampLimit (limit : Option Int) : Int :=
  min (max 1 (match limit with
              | none => 20
              | some v => if v = 0 then 20 else v)) 100

/-- Embeds the application of the clamped limit to the data-store query
(`query = query.limit(limit)` followed by `query.execute()`): the store
returns at most `limit` rows, modelled as `List.take`. -/
def applyLimit {α : Type} (rows : List α) (limit : Option Int) : List α :=
  rows.take (clampLimit limit).toNat

/-- Embeds `ToolsManager._validate_price_range`: a negative minimum is
raised to `0`, a negative maximum is dropped, and an inverted pair is
swapped. -/
def validate_price_range (min_price max_price : Option Int) :
    Option Int × Option Int :=
  let mn : Option Int := match min_price with
    | some v => some (if v < 0 then 0 else v)
    | none => none
  let mx : Option Int := match max_price with
    | some v => if v < 0 then none else some v
    | none => none
  match mn, mx with
  | some a, some b => if a > b then (some b, some a) else (some a, some b)
  | a, b => (a, b)

/-! ## Vibe mapper (`app/services/vibe_mapper.py`) -/

/-- The static vibe-term → attribute vocabulary `VIBE_MAPPINGS`. -/
def VIBE_MAPPINGS : List (String × List (String × List String)) :=
  [("casual",
     [("style", ["relaxed", "everyday", "comfortable"]),
      ("fabric", ["cotton", "denim", "jersey", "linen"]),
      ("fit", ["relaxed", "regular"]),
      ("occasion", ["everyday", "weekend", "casual outing"])]),
   ("formal",
     [("style", ["elegant", "sophisticated", "tailored"]),
      ("fabric", ["silk", "satin", "wool", "polyester blend"]),
      ("fit", ["tailored", "slim"]),
      ("occasion", ["work", "business", "formal event"])]),
   ("cute",
     [("style", ["playful", "feminine", "youthful"]),
      ("pattern", ["floral", "polka dot", "heart"]),
      ("color", ["pastel", "pink", "light blue", "lavender"]),
      ("occasion", ["date", "casual outing", "brunch"])]),
   ("edgy",
     [("style", ["bold", "statement", "modern"]),
      ("color", ["black", "dark", "metallic"]),
      ("fabric", ["leather", "denim", "mesh"]),
      ("occasion", ["night out", "concert", "party"])]),
   ("boho",
     [("style", ["bohemian", "free-spirited", "artistic"]),
      ("pattern", ["paisley", "floral", "ethnic"]),
      ("fabric", ["cotton", "linen", "crochet"]),
      ("fit", ["flowy", "relaxed"]),
      ("occasion", ["festival", "beach", "casual outing"])])]

/-- The fixed key set of the `attributes` accumulator dict in
`VibeMapper.map_vibe_to_attributes`. -/
def attributeKeys : List String :=
  ["style", "fabric", "fit", "pattern", "color", "occasion"]

/-- The values a single term contributes to one attribute key:
`VIBE_MAPPINGS[term.lower()][key]`, empty when the term or the key is
absent. -/
def termVals (key term : String) : List String :=
  match VIBE_MAPPINGS.lookup (pyLower term) with
  | some mapping =>
    match mapping.lookup key with
    | some vs => vs
    | none => []
  | none => []

/-- The accumulated (pre-dedup) value list for one key: the source's
`for term in vibe_terms: attributes[attr_key].extend(attr_values)` loop,
restricted to the key. -/
def collectVals (key : String) (terms : List String) : List String :=
  terms.foldl (fun acc t => acc ++ termVals key t) []

/-- Embeds `VibeMapper.map_vibe_to_attributes`. The source de-duplicates
with `list(set(...))`, whose element order is unspecified (hash order); it
is modelled by `List.dedup`, and all theorems about the result treat value
lists as sets. Keys whose value list is empty are dropped, mirroring the
final dict comprehension. -/
def map_vibe_to_attributes (terms : List String) :
    List (String × List String) :=
  attributeKeys.filterMap (fun k =>
    let vs := (collectVals k terms).dedup
    if vs = [] then none else some (k, vs))

/-- Embeds `VibeMapper.extract_vibe_terms`: vocabulary keys found as
substrings of the lowercased query, in vocabulary order. -/
def extract_vibe_terms (query : String) : List String :=
  (VIBE_MAPPINGS.map Prod.fst).filter (fun term => pyIn term (pyLower query))

/-- Observer: the value list stored under `key` in the produced
AttributeQuery (empty when the key is absent). -/
def attrValues (terms : List String) (key : String) : List String :=
  match (map_vibe_to_attributes terms).lookup key with
  | some vs => vs
  | none => []

/-- Observer: set-membership view of the produced AttributeQuery. -/
def memVal (terms : List String) (key v : String) : Bool :=
  decide (v ∈ attrValues terms key)

/-! ## Product catalog filter (`app/services/product_service.py`) -/

/-- A product field value: products mix strings (`category`, `fabric`,
`color`, ...), string lists (`style`, `occasion`) and integers (`price`).
An integer field satisfies neither `isinstance` branch of the scoring
loop, so it can never be matched. -/
inductive PVal : Type
  | s (v : String)
  | l (vs : List String)
  | i (n : Int)
deriving DecidableEq

/-- A product is a Python dict, modelled as an association list (keys are
unique in the source data). -/
abbrev Product := List (String × PVal)

/-- A filter value may be a single string or a list of strings. -/
inductive FVal : Type
  | s (v : String)
  | l (vs : List String)
deriving DecidableEq

/-- The `filters` dict passed to `ProductService.filter_products`. -/
abbrev FilterQuery := List (String × FVal)

/-- One pass of the inner scoring loop of `filter_products`: whether this
filter value matches this product value. List-valued product fields use
case-insensitive membership, string fields use case-insensitive substring
containment, integer fields match nothing. -/
def matchesAttr : PVal → FVal → Bool
  | .l pvs, .l vs => vs.any (fun v => (pvs.map pyLower).contains (pyLower v))
  | .l pvs, .s v => (pvs.map pyLower).contains (pyLower v)
  | .s pv, .l vs => vs.any (fun v => pyIn (pyLower v) (pyLower pv))
  | .s pv, .s v => pyIn (pyLower v) (pyLower pv)
  | .i _, _ => false

/-- One iteration of the scoring loop of `filter_products`: a filter whose
key the product lacks is skipped (`continue`); any other filter raises
`max_possible_score` and, on a match, `match_score`. -/
def scoreStep (p : Product) (acc : Nat × Nat) (kv : String × FVal) :
    Nat × Nat :=
  match p.lookup kv.1 with
  | none => acc
  | some pval =>
    (acc.1 + (if matchesAttr pval kv.2 then 1 else 0), acc.2 + 1)

/-- The `(match_score, max_possible_score)` pair computed by the scoring
loop of `filter_products` for one product. -/
def scoreCounts (q : FilterQuery) (p : Product) : Nat × Nat :=
  q.foldl (scoreStep p) (0, 0)

/-- `match_percentage = match_score / max_possible_score if
max_possible_score > 0 else 0`. The source divides Python ints into a
float; it is modelled over ℚ, which agrees with correctly rounded binary
division on equality and order for all fractions with the denominators
that can arise here (bounded by the number of filter keys). -/
def match_percentage (q : FilterQuery) (p : Product) : ℚ :=
  let c := scoreCounts q p
  if 0 < c.2 then (c.1 : ℚ) / (c.2 : ℚ) else 0

/-- One entry of the internal `results` list of `filter_products`. -/
structure Scored where
  product : Product
  pct : ℚ
deriving DecidableEq

/-- The `results` list: products with positive `match_score`, in catalog
order, paired with their match percentage. -/
def scoredResults (products : List Product) (q : FilterQuery) :
    List Scored :=
  products.filterMap (fun p =>
    if 0 < (scoreCounts q p).1 then some ⟨p, match_percentage q p⟩ else none)

/-- The ordering used by `results.sort(key=..., reverse=True)`: `a` may
come before `b` when `b`'s percentage does not exceed `a`'s. -/
def scoreRel (a b : Scored) : Prop := b.pct ≤ a.pct

instance : DecidableRel scoreRel :=
  fun a b => inferInstanceAs (Decidable (b.pct ≤ a.pct))

/-- Embeds `ProductService.filter_products`. Python's `list.sort` is a
stable sort; since a stable sort with respect to a total preorder is
unique, it is modelled by `List.insertionSort` with the non-strict
descending relation `scoreRel` (which inserts equal-percentage elements
after existing ones, i.e. stably). -/
def filter_products (products : List Product) (q : FilterQuery)
    (limit : Nat) : List Product :=
  ((List.insertionSort scoreRel (scoredResults products q)).take limit).map
    Scored.product

/-- A `results` entry annotated with its catalog index, used to state the
stability of the sort. -/
structure IScored where
  idx : Nat
  product : Product
  pct : ℚ
deriving DecidableEq

/-- Descending-percentage ordering on index-annotated entries. -/
def iscoreRel (a b : IScored) : Prop := b.pct ≤ a.pct

instance : DecidableRel iscoreRel :=
  fun a b => inferInstanceAs (Decidable (b.pct ≤ a.pct))

/-- The `results` list of `filter_products` with each surviving product
annotated by its index in the catalog list. -/
def iscoredResults (products : List Product) (q : FilterQuery) :
    List IScored :=
  products.enum.filterMap (fun ip =>
    if 0 < (scoreCounts q ip.2).1 then
      some ⟨ip.1, ip.2, match_percentage q ip.2⟩
    else none)

/-- Index-annotated version of `filter_products` (before projecting away
scores and indices). -/
def filterProductsIdx (products : List Product) (q : FilterQuery)
    (limit : Nat) : List IScored :=
  (List.insertionSort iscoreRel (iscoredResults products q)).take limit

/-- `a` precedes `b` legitimately: strictly better percentage, or equal
percentage and earlier catalog position. -/
def stableRel (a b : IScored) : Prop :=
  b.pct ≤ a.pct ∧ (a.pct = b.pct → a.idx < b.idx)

/-- Forget the catalog index. -/
def toScored (a : IScored) : Scored := ⟨a.product, a.pct⟩

/-- Small concrete catalog used by witnesses. -/
def demoTop : Product :=
  [("id", .s "T1"), ("category", .s "top"), ("fabric", .s "linen")]

/-- Small concrete catalog used by witnesses. -/
def demoDress : Product :=
  [("id", .s "D1"), ("category", .s "dress"), ("fabric", .s "silk")]

/-- Small concrete catalog used by witnesses. -/
def demoCatalog : List Product := [demoTop, demoDress]

/-- Concrete filter query used by witnesses. -/
def demoQuery : FilterQuery := [("category", .s "dress")]

/-! ## Agent orchestration (`app/services/agent_processor.py`) -/

/-- Conversation roles. Unknown roles are carried verbatim and skipped
(with a logged warning) by the Gemini conversion. -/
inductive Role : Type
  | user
  | assistant
  | system
  | tool
  | other (s : String)
deriving DecidableEq

/-- A structured tool-call request extracted from a collaborator response
(the dict with keys `name`, `args`, `id`, `type`). -/
structure ToolCall where
  name : String
  args : List (String × String)
  id : String
deriving DecidableEq

/-- One conversation turn as stored in the state's `messages` list. Keys
that a given turn kind does not use stay at their defaults. -/
structure Message where
  role : Role
  content : String
  name : Option String := none
  tool_call_id : Option String := none
  tool_calls : List ToolCall := []
deriving DecidableEq

/-- Gemini-side message roles. -/
inductive GRole : Type
  | user
  | model
deriving DecidableEq

/-- A message in Gemini format (role plus the joined `parts`). -/
structure GMsg where
  role : GRole
  parts : String
deriving DecidableEq

/-- The default system instruction of `agent_node` (source lines 156-185;
leading indentation not reproduced). The content is inert for every
theorem below. -/
def defaultSystemInstruction : String :=
  String.intercalate "\n"
    ["You are a fashion-savvy shopping assistant that helps customers find clothing based on their vibe descriptions.",
     "",
     "CONVERSATION FLOW:",
     "1. When a user asks for clothing with a vibe description (e.g., \"something cute for brunch\"), ask AT MOST 1-2 targeted follow-up questions to clarify their needs.",
     "2. Focus follow-up questions on critical missing information like category, size, budget, or specific preferences.",
     "3. After 1-2 follow-ups, provide product recommendations with clear justification.",
     "4. NEVER ask more than 2 follow-up questions.",
     "",
     "RESPONSE FORMATTING:",
     "- Use clean, plain text without any formatting symbols like asterisks, bullets, or markdown",
     "- Separate different products with clear line breaks",
     "- Write in natural, conversational language",
     "- Keep responses organized but simple",
     "- If you receive a tool response with JSON format, use it to generate a list of products in a readable format",
     "- If you receive a tool response with a list of products, ALWAYS SHOW APPAREL ID to the user for each product",
     "- Start numbered lists with a new line and a number followed by a period",
     "",
     "ATTRIBUTE MAPPING:",
     "- Translate vibe terms like \"casual,\" \"elegant,\" or \"cute\" into structured attributes",
     "- Map seasonal terms to appropriate fabrics and styles",
     "- Infer preferences based on occasion mentions",
     "",
     "RECOMMENDATIONS:",
     "- Provide 3-5 specific product recommendations that match both explicit and inferred preferences",
     "- Include a brief justification explaining why these items match their vibe",
     "- Highlight key features that align with their request using plain text descriptions",
     "",
     "Remember to maintain a helpful, knowledgeable tone and focus on understanding the shopper's needs efficiently."]

/-- Substituted content for an assistant turn with empty content during
conversion. -/
def emptyAssistantFallback : String := "Let me help you with that."

/-- Re-narration of a tool turn as an assistant-authored summary. -/
def toolTurnText (m : Message) : String :=
  "I used the " ++ (match m.name with | some n => n | none => "tool") ++
    " and got: " ++ m.content

/-- The conversion loop of `agent_node` (lines 187-216): accumulates
Gemini messages and the (last) system instruction; unknown roles are
skipped. -/
def collectGemini (msgs : List Message) : List GMsg × String :=
  msgs.foldl (fun acc m =>
    match m.role with
    | .system => (acc.1, m.content)
    | .user => (acc.1 ++ [⟨.user, m.content⟩], acc.2)
    | .assistant =>
      (acc.1 ++ [⟨.model,
        if m.content = "" then emptyAssistantFallback else m.content⟩], acc.2)
    | .tool => (acc.1 ++ [⟨.model, toolTurnText m⟩], acc.2)
    | .other _ => acc) ([], defaultSystemInstruction)

/-- Conversion to Gemini format including the system-instruction merge
(lines 218-224): a non-empty instruction is prepended to the first
message when that message is a user message. -/
def toGeminiMessages (msgs : List Message) : List GMsg :=
  match collectGemini msgs with
  | (gm, si) =>
    match gm with
    | ⟨.user, c⟩ :: rest =>
      if si = "" then ⟨.user, c⟩ :: rest
      else ⟨.user, si ++ "\n\nUser: " ++ c⟩ :: rest
    | _ => gm

/-- The parsed outcome of one collaborator round trip: concatenated text
parts and the extracted tool-call list (lines 350-402). An exception
thrown by `generate_content_async` is `Except.error`. -/
structure LLMReply where
  text : String
  calls : List ToolCall
deriving DecidableEq

/-- The reasoning-step collaborator, quantified over in every theorem. -/
abbrev LLMStub := List GMsg → Except String LLMReply

/-- A registry entry: a named tool with one uniform invocation capability
(the source's ainvoke/invoke/arun/run duck-typed probing collapses to one
`run`); an exception raised during invocation is `Except.error`. -/
structure ToolDef where
  name : String
  run : List (String × String) → Except String String

/-- One entry of `state["last_tool_outputs"]`. -/
structure ToolOutput where
  tool : String
  args : List (String × String)
  result : String
deriving DecidableEq

/-- The LangGraph state (`app/models/agent_state.py`). The serialized
`tools` list in the state only feeds the collaborator's function
declarations and is absorbed into the stub boundary. -/
structure AgentState where
  messages : List Message
  current_tool : Option ToolCall := none
  last_tool_outputs : List ToolOutput := []
  error : Option String := none
  streaming : Bool := false
deriving DecidableEq

/-- Fallback when neither text nor tool calls were extracted, and also the
default response of `process` when no assistant turn exists. -/
def fallbackText : String := "I'm not sure how to respond to that."

/-- Text substituted by the inner `except` of `agent_node` when content
generation throws. -/
def generateErrorText : String :=
  "I encountered an error generating a response. Please try again."

/-- Error message set by `tool_node` for an unknown tool name. -/
def toolNotFoundText (n : String) : String := "Tool " ++ n ++ " not found"

/-- Error message set by `tool_node` when no tool is pending. -/
def noToolText : String := "No tool specified for execution"

/-- Tool-turn content produced when the tool invocation raises. -/
def toolExecErrorText (e : String) : String := "Error executing tool: " ++ e

/-- Embeds `AgentProcessor.agent_node` (with the LLM available): convert
the conversation, call the collaborator, and handle the outcome.
`Except.error` models an exception from `generate_content_async`, caught
by the inner handler (line 458): it substitutes a fixed error text and
clears the pending tool without touching the state's error field. (The
outer handler at line 480 guards conversion code that cannot fail here.)
With at least one extracted tool call, only the first becomes
`current_tool` while the appended assistant turn carries the full list;
with none, empty text falls back to `fallbackText`. -/
def agent_node (stub : LLMStub) (st : AgentState) : AgentState :=
  match stub (toGeminiMessages st.messages) with
  | .error _ =>
    { st with
      messages := st.messages ++
        [{ role := .assistant, content := generateErrorText }],
      current_tool := none }
  | .ok reply =>
    match reply.calls with
    | [] =>
      let text := if reply.text = "" then fallbackText else reply.text
      { st with
        messages := st.messages ++ [{ role := .assistant, content := text }],
        current_tool := none }
    | c :: rest =>
      { st with
        messages := st.messages ++
          [{ role := .assistant, content := reply.text,
             tool_calls := c :: rest }],
        current_tool := some c }

/-- Embeds `AgentProcessor.tool_node`: resolve the pending tool by exact
name in the registry. Unknown name: set the error field, clear the
pending tool, append nothing. Found: invoke, soft-failing a raised
exception into the result string, then append the tool turn and the
invocation record and clear the pending tool. -/
def tool_node (reg : List ToolDef) (st : AgentState) : AgentState :=
  match st.current_tool with
  | none => { st with error := some noToolText }
  | some ct =>
    match reg.find? (fun t => t.name == ct.name) with
    | none =>
      { st with
        error := some (toolNotFoundText ct.name),
        current_tool := none }
    | some t =>
      let result := match t.run ct.args with
        | .ok r => r
        | .error e => toolExecErrorText e
      { st with
        last_tool_outputs :=
          st.last_tool_outputs ++ [⟨ct.name, ct.args, result⟩],
        messages := st.messages ++
          [{ role := .tool, content := result, name := some ct.name,
             tool_call_id := some ct.id }],
        current_tool := none }

/-- Embeds `AgentProcessor.should_continue`: `true` routes to the tool
node, `false` is END. -/
def should_continue (st : AgentState) : Bool :=
  if st.error.isSome then false
  else st.current_tool.isSome && decide (st.last_tool_outputs.length < 3)

/-- The compiled graph loop: after each agent step the router either ends
or runs `tool_node` followed (unconditional edge) by `agent_node` again.
`fuel` bounds the router iterations (the framework's recursion limit);
theorems quantify over it. Returns the final state and the number of
tool-node (ACT) transitions taken. -/
def run_loop (stub : LLMStub) (reg : List ToolDef) :
    Nat → AgentState → Nat → AgentState × Nat
  | 0, st, acts => (st, acts)
  | fuel + 1, st, acts =>
    if should_continue st then
      run_loop stub reg fuel (agent_node stub (tool_node reg st)) (acts + 1)
    else (st, acts)

/-- The fresh per-request state built by `process` from the caller's
history. -/
def initialState (history : List Message) : AgentState :=
  { messages := history, current_tool := none, last_tool_outputs := [],
    error := none, streaming := false }

/-- Run the compiled graph from the entry node. -/
def run_graph (stub : LLMStub) (reg : List ToolDef) (fuel : Nat)
    (history : List Message) : AgentState × Nat :=
  run_loop stub reg fuel (agent_node stub (initialState history)) 0

/-- The structured result of `process`. -/
structure ProcessResult where
  response : String
  tool_outputs : List ToolOutput
  error : Option String
deriving DecidableEq

/-- The framework's default recursion limit, mirrored as the fuel used by
`process`. -/
def recursionLimit : Nat := 25

/-- Embeds `AgentProcessor.process`: run the graph on a fresh state and
extract the last assistant turn as the response. The `try/except` around
the graph invocation catches graph exceptions; the embedded run is total,
so that handler is unreachable here. -/
def process (stub : LLMStub) (reg : List ToolDef)
    (history : List Message) : ProcessResult :=
  let final := (run_graph stub reg recursionLimit history).1
  let assistants := final.messages.filter (fun m => m.role == Role.assistant)
  { response := match assistants.getLast? with
      | some m => m.content
      | none => fallbackText,
    tool_outputs := final.last_tool_outputs,
    error := final.error }

/-! ## Streaming adapter (`AgentProcessor.process_stream`) -/

/-- External streaming events (`type` field of the yielded dicts). -/
inductive SEvent : Type
  | message (content : String)
  | toolOutput (content : String)
  | error (msg : String)
  | completion
deriving DecidableEq

/-- The observable part of one `astream` chunk: the node state's message
list and error field. (The `needs_streaming_response` branch of the
source is dead: no code path ever sets that flag.) -/
structure NodeChunk where
  msgs : List Message
  err : Option String
deriving DecidableEq

/-- Events emitted for one chunk (lines 857-889): the latest message, if
an assistant turn with non-empty content or a tool turn, yields one
event; a node-state error additionally yields an error event and the
iteration continues. -/
def chunkEvents (c : NodeChunk) : List SEvent :=
  (match c.msgs.getLast? with
   | some m =>
     if m.role == Role.assistant && m.content != "" then
       [SEvent.message m.content]
     else if m.role == Role.tool then [SEvent.toolOutput m.content]
     else []
   | none => []) ++
  (match c.err with
   | some e => [SEvent.error e]
   | none => [])

/-- Embeds the event stream of `process_stream`: the async-for body runs
per chunk; the single completion event is yielded after the loop, inside
the `try`; an exception while streaming (an `Except.error` chunk) is
caught by the `except`, which yields a final error event — and the
generator ends with nothing after it. -/
def process_stream_events : List (Except String NodeChunk) → List SEvent
  | [] => [SEvent.completion]
  | .error e :: _ => [SEvent.error e]
  | .ok c :: rest => chunkEvents c ++ process_stream_events rest

/-! ## Concrete data for witnesses and counterexamples -/

/-- A concrete user turn. -/
def demoUserMsg : Message := { role := Role.user, content := "hi" }

/-- A concrete pending tool call whose name no registry entry bears. -/
def demoToolCall : ToolCall := ⟨"vibe_check", [], "tool_call_1"⟩

/-- A concrete registry with the live-search tool name. -/
def demoReg : List ToolDef := [⟨"find_apparels", fun _ => .ok "ok"⟩]

/-- A concrete state about to dispatch an unknown tool. -/
def demoPendingState : AgentState :=
  { messages := [demoUserMsg], current_tool := some demoToolCall,
    last_tool_outputs := [], error := none, streaming := false }

/-- A stub collaborator that always requests one tool call. -/
def demoStubToolCall : LLMStub := fun _ => .ok ⟨"", [demoToolCall]⟩

/-- A stub collaborator that always throws. -/
def demoThrowStub : LLMStub := fun _ => .error "LLM unavailable"

/-- Whether an `astream` step succeeded (its chunk arrived) rather than
raised. -/
def chunkOk : Except String NodeChunk → Bool
  | .ok _ => true
  | .error _ => false

/-! # Lemmas and theorems -/

/-! ## Tools layer -/

/-- C7: for every integer limit argument passed to `find_apparels`
(including 0, negative values, values above 100 and the absent case) the
clamped limit lies in `[1, 100]` and the number of returned rows is
bounded by it (hence by 100). -/
theorem find_apparels_limit_clamped {α : Type} (rows : List α)
    (limit : Option Int) :
    1 ≤ clampLimit limit ∧ clampLimit limit ≤ 100 ∧
      (applyLimit rows limit).length ≤ (clampLimit limit).toNat ∧
      (applyLimit rows limit).length ≤ 100 := by
  have hb : 1 ≤ clampLimit limit ∧ clampLimit limit ≤ 100 := by
    unfold clampLimit
    rcases limit with _ | v
    · constructor <;> simp
    · by_cases h : v = 0 <;> simp [h, le_min_iff, le_max_iff]
  have h1 : (applyLimit rows limit).length ≤ (clampLimit limit).toNat := by
    simp [applyLimit]
  have h2 : (clampLimit limit).toNat ≤ 100 := by
    have := hb.2
    omega
  exact ⟨hb.1, hb.2, h1, by omega⟩

/-- C10: the price constraint actually applied is always a consistent
inclusive range: a negative minimum is raised to 0, a negative maximum is
dropped entirely, and whenever both bounds survive they satisfy
`applied minimum ≤ applied maximum` (an inverted pair is swapped, never
kept as a contradictory range). -/
theorem price_range_consistent (min_price max_price : Option Int) :
    (∀ v, min_price = some v → v < 0 →
       (validate_price_range min_price max_price).1 = some 0) ∧
    (∀ v, max_price = some v → v < 0 →
       (validate_price_range min_price max_price).2 = none) ∧
    (∀ a b, (validate_price_range min_price max_price).1 = some a →
       (validate_price_range min_price max_price).2 = some b → a ≤ b) := by
  refine ⟨?_, ?_, ?_⟩
  · intro v hv hneg
    subst hv
    rcases max_price with _ | M
    · simp [validate_price_range, if_pos hneg]
    · by_cases hM : M < 0
      · simp [validate_price_range, if_pos hneg, hM]
      · have h0M : ¬ ((0 : Int) > M) := by omega
        simp [validate_price_range, if_pos hneg, hM, h0M]
  · intro v hv hneg
    subst hv
    rcases min_price with _ | m
    · simp [validate_price_range, if_pos hneg]
    · simp [validate_price_range, if_pos hneg]
  · intro a b ha hb
    rcases min_price with _ | m <;> rcases max_price with _ | M
    · simp [validate_price_range] at ha
    · by_cases hM : M < 0 <;> simp [validate_price_range, hM] at ha hb
    · simp [validate_price_range] at hb
    · by_cases hm : m < 0 <;> by_cases hM : M < 0 <;>
        simp [validate_price_range, hm, hM] at ha hb
      · omega
      · by_cases hswap : M < m <;> simp [hswap] at ha hb <;> omega

/-- Witness for C10 at concrete inputs: a negative minimum together with a
positive maximum is adjusted to the consistent range `[0, 3]`. -/
theorem price_range_consistent_witness :
    (validate_price_range (some (-5)) (some 3)).1 = some 0 ∧
      (0 : Int) ≤ 3 := by
  have h := price_range_consistent (some (-5)) (some 3)
  refine ⟨h.1 (-5) rfl (by decide), ?_⟩
  exact h.2.2 0 3 (by decide) (by decide)

/-! ## Vibe mapper -/

theorem foldl_append_flatMap {α β : Type} (f : α → List β) :
    ∀ (l : List α) (acc : List β),
      l.foldl (fun a t => a ++ f t) acc = acc ++ l.flatMap f
  | [], acc => by simp
  | x :: xs, acc => by
    simp only [List.foldl_cons, foldl_append_flatMap f xs (acc ++ f x),
      List.flatMap_cons, List.append_assoc]

theorem mem_collectVals {key v : String} {terms : List String} :
    v ∈ collectVals key terms ↔ ∃ t ∈ terms, v ∈ termVals key t := by
  unfold collectVals
  rw [foldl_append_flatMap]
  simp [List.mem_flatMap]

theorem lookup_filterMap_keys (g : String → Option (String × List String))
    (hg : ∀ k pr, g k = some pr → pr.1 = k) :
    ∀ (keys : List String), keys.Nodup → ∀ k,
      (keys.filterMap g).lookup k =
        if k ∈ keys then (g k).map Prod.snd else none
  | [], _, k => by simp
  | k' :: ks, hnd, k => by
    have hnd' : ks.Nodup := (List.nodup_cons.mp hnd).2
    have hk'ks : k' ∉ ks := (List.nodup_cons.mp hnd).1
    cases hgk : g k' with
    | none =>
      rw [List.filterMap_cons_none hgk,
        lookup_filterMap_keys g hg ks hnd' k]
      by_cases hkk : k = k'
      · subst hkk
        simp [hk'ks, hgk]
      · simp [hkk]
    | some pr =>
      obtain ⟨p1, p2⟩ := pr
      have hpr : p1 = k' := hg k' (p1, p2) hgk
      subst hpr
      rw [List.filterMap_cons_some hgk]
      by_cases hkk : k = p1
      · subst hkk
        simp [List.lookup, hgk]
      · have hrec := lookup_filterMap_keys g hg ks hnd' k
        have hbe : (k == p1) = false := beq_eq_false_iff_ne.mpr hkk
        simp [List.lookup, hkk, hrec, hbe]

theorem lookup_map_vibe (terms : List String) (k : String) :
    (map_vibe_to_attributes terms).lookup k =
      if k ∈ attributeKeys then
        (if (collectVals k terms).dedup = [] then none
         else some (collectVals k terms).dedup)
      else none := by
  unfold map_vibe_to_attributes
  rw [lookup_filterMap_keys _ ?hg attributeKeys (by decide) k]
  case hg =>
    intro k' pr h
    by_cases he : (collectVals k' terms).dedup = [] <;> simp [he] at h
    exact (congrArg Prod.fst h.symm)
  by_cases hk : k ∈ attributeKeys <;>
    by_cases he : (collectVals k terms).dedup = [] <;> simp [hk, he]

theorem mem_attrValues (terms : List String) (k v : String) :
    memVal terms k v = true ↔
      (k ∈ attributeKeys ∧ ∃ t ∈ terms, v ∈ termVals k t) := by
  have hmem : v ∈ attrValues terms k ↔
      (k ∈ attributeKeys ∧ v ∈ collectVals k terms) := by
    unfold attrValues
    rw [lookup_map_vibe]
    by_cases hk : k ∈ attributeKeys
    · rw [if_pos hk]
      by_cases he : (collectVals k terms).dedup = []
      · rw [if_pos he]
        have hce : collectVals k terms = [] := (List.dedup_eq_nil _).mp he
        simp [hk, hce]
      · rw [if_neg he]
        simp [hk, List.mem_dedup]
    · rw [if_neg hk]
      simp [hk]
  unfold memVal
  rw [decide_eq_true_eq, hmem, mem_collectVals]

/-- C8: mapping vibe terms to attributes is a set-union over the per-term
attribute lists; the result, viewed as a mapping from attribute key to a
set of values, is invariant under reordering and repetition of the input
terms; value lists are de-duplicated and non-empty, keys with no values
are absent, and a term outside the vocabulary contributes nothing (and
raises no error). -/
theorem vibe_mapping_set_union :
    (∀ terms k v, memVal terms k v = true ↔
        (k ∈ attributeKeys ∧ ∃ t ∈ terms, v ∈ termVals k t)) ∧
    (∀ ts1 ts2 : List String, (∀ t, t ∈ ts1 ↔ t ∈ ts2) →
        ∀ k v, memVal ts1 k v = memVal ts2 k v) ∧
    (∀ terms k vs, (k, vs) ∈ map_vibe_to_attributes terms →
        vs.Nodup ∧ vs ≠ []) ∧
    (∀ t terms, VIBE_MAPPINGS.lookup (pyLower t) = none →
        map_vibe_to_attributes (t :: terms) = map_vibe_to_attributes terms) := by
  refine ⟨mem_attrValues, ?_, ?_, ?_⟩
  · intro ts1 ts2 hset k v
    by_cases hb : memVal ts1 k v = true
    · obtain ⟨hk, t, ht, hv⟩ := (mem_attrValues ts1 k v).mp hb
      have hb2 : memVal ts2 k v = true :=
        (mem_attrValues ts2 k v).mpr ⟨hk, t, (hset t).mp ht, hv⟩
      rw [hb, hb2]
    · by_cases hb2 : memVal ts2 k v = true
      · obtain ⟨hk, t, ht, hv⟩ := (mem_attrValues ts2 k v).mp hb2
        exact absurd ((mem_attrValues ts1 k v).mpr
          ⟨hk, t, (hset t).mpr ht, hv⟩) hb
      · simp only [Bool.not_eq_true] at hb hb2
        rw [hb, hb2]
  · intro terms k vs hmem
    obtain ⟨k', _, hk'⟩ := List.mem_filterMap.mp hmem
    by_cases he : (collectVals k' terms).dedup = [] <;> simp [he] at hk'
    obtain ⟨-, hvs⟩ := hk'
    subst hvs
    exact ⟨List.nodup_dedup _, he⟩
  · intro t terms h
    have hc : ∀ k, collectVals k (t :: terms) = collectVals k terms := by
      intro k
      unfold collectVals
      simp [List.foldl_cons, termVals, h]
    unfold map_vibe_to_attributes
    simp only [hc]

/-- Witness for C8: the term lists `["casual", "cute"]` and
`["cute", "casual", "cute"]` (reordered, with repetition) produce the
same style set at the value `"playful"`. -/
theorem vibe_mapping_set_union_witness :
    memVal ["casual", "cute"] "style" "playful" =
      memVal ["cute", "casual", "cute"] "style" "playful" := by
  refine vibe_mapping_set_union.2.1 ["casual", "cute"]
    ["cute", "casual", "cute"] ?_ "style" "playful"
  intro t
  simp only [List.mem_cons, List.not_mem_nil, or_false]
  tauto

/-! ## Product catalog filter -/

theorem foldl_scoreStep_le (p : Product) :
    ∀ (l : FilterQuery) (a b : Nat), a ≤ b →
      (l.foldl (scoreStep p) (a, b)).1 ≤ (l.foldl (scoreStep p) (a, b)).2
  | [], a, b, h => h
  | kv :: t, a, b, h => by
    simp only [List.foldl_cons]
    cases hpl : p.lookup kv.1 with
    | none =>
      simp only [scoreStep, hpl]
      exact foldl_scoreStep_le p t a b h
    | some pval =>
      simp only [scoreStep, hpl]
      refine foldl_scoreStep_le p t _ _ ?_
      by_cases hm : matchesAttr pval kv.2 <;> simp [hm] <;> omega

theorem scoreCounts_le (q : FilterQuery) (p : Product) :
    (scoreCounts q p).1 ≤ (scoreCounts q p).2 :=
  foldl_scoreStep_le p q 0 0 (Nat.le_refl 0)

theorem match_percentage_pos (q : FilterQuery) (p : Product)
    (h : 0 < (scoreCounts q p).1) : 0 < match_percentage q p := by
  have h2 : 0 < (scoreCounts q p).2 := lt_of_lt_of_le h (scoreCounts_le q p)
  unfold match_percentage
  rw [if_pos h2]
  exact div_pos (by exact_mod_cast h) (by exact_mod_cast h2)

/-- C2: a product whose match score under the query is exactly 0 never
appears in the output of `filter_products`, for any catalog and any
limit — zero scorers are excluded, not merely ranked last. -/
theorem zero_score_excluded (products : List Product) (q : FilterQuery)
    (limit : Nat) (p : Product) (h : match_percentage q p = 0) :
    p ∉ filter_products products q limit := by
  intro hmem
  unfold filter_products at hmem
  obtain ⟨s, hs, hsp⟩ := List.mem_map.mp hmem
  have hs1 : s ∈ List.insertionSort scoreRel (scoredResults products q) :=
    List.mem_of_mem_take hs
  have hs2 : s ∈ scoredResults products q :=
    (List.mem_insertionSort scoreRel).mp hs1
  obtain ⟨p', hp', hif⟩ := List.mem_filterMap.mp hs2
  by_cases hc : 0 < (scoreCounts q p').1
  · rw [if_pos hc] at hif
    have hsval : s = ⟨p', match_percentage q p'⟩ := (Option.some_inj.mp hif).symm
    have hpp : p' = p := by
      rw [hsval] at hsp
      exact hsp
    subst hpp
    exact absurd h (ne_of_gt (match_percentage_pos q p' hc))
  · rw [if_neg hc] at hif
    cases hif

/-- Witness for C2 at concrete inputs: in the two-product demo catalog,
the top scores 0 against the query `category = "dress"` and is absent from
the filtered output. -/
theorem zero_score_excluded_witness :
    match_percentage demoQuery demoTop = 0 ∧
      demoTop ∉ filter_products demoCatalog demoQuery 3 := by
  have hc : scoreCounts demoQuery demoTop = (0, 1) := by decide
  have h0 : match_percentage demoQuery demoTop = 0 := by
    simp [match_percentage, hc]
  exact ⟨h0, zero_score_excluded demoCatalog demoQuery 3 demoTop h0⟩

theorem mem_enumFrom_le {α : Type} :
    ∀ (l : List α) (n : Nat) (b : Nat × α), b ∈ List.enumFrom n l → n ≤ b.1
  | [], _, _, h => by simp [List.enumFrom] at h
  | x :: xs, n, b, h => by
    simp only [List.enumFrom, List.mem_cons] at h
    rcases h with rfl | h'
    · exact Nat.le_refl n
    · exact Nat.le_trans (Nat.le_succ n) (mem_enumFrom_le xs (n + 1) b h')

theorem pairwise_enumFrom {α : Type} :
    ∀ (l : List α) (n : Nat),
      (List.enumFrom n l).Pairwise (fun a b => a.1 < b.1)
  | [], n => by simp [List.enumFrom]
  | x :: xs, n => by
    simp only [List.enumFrom]
    refine List.Pairwise.cons ?_ (pairwise_enumFrom xs (n + 1))
    intro b hb
    have := mem_enumFrom_le xs (n + 1) b hb
    omega

theorem pairwise_idx_iscored (products : List Product) (q : FilterQuery) :
    (iscoredResults products q).Pairwise (fun a b => a.idx < b.idx) := by
  unfold iscoredResults
  refine List.Pairwise.filterMap _ ?_ (pairwise_enumFrom products 0)
  intro a a' hlt b hb b' hb'
  by_cases hca : 0 < (scoreCounts q a.2).1 <;> simp [hca] at hb
  by_cases hca' : 0 < (scoreCounts q a'.2).1 <;> simp [hca'] at hb'
  rw [← hb, ← hb']
  exact hlt

theorem pairwise_stable_orderedInsert (x : IScored) :
    ∀ (l : List IScored), l.Pairwise stableRel → (∀ b ∈ l, x.idx < b.idx) →
      (List.orderedInsert iscoreRel x l).Pairwise stableRel
  | [], _, _ => List.pairwise_singleton _ _
  | b :: t, hP, hidx => by
    simp only [List.orderedInsert]
    obtain ⟨hb, ht⟩ := List.pairwise_cons.mp hP
    by_cases h : iscoreRel x b
    · rw [if_pos h]
      refine List.Pairwise.cons ?_ hP
      intro c hc
      rcases List.mem_cons.mp hc with rfl | hct
      · exact ⟨h, fun _ => hidx c (List.mem_cons_self _ _)⟩
      · exact ⟨le_trans (hb c hct).1 h,
          fun _ => hidx c (List.mem_cons_of_mem _ hct)⟩
    · rw [if_neg h]
      have hlt : x.pct < b.pct := lt_of_not_le h
      refine List.Pairwise.cons ?_
        (pairwise_stable_orderedInsert x t ht
          (fun c hc => hidx c (List.mem_cons_of_mem _ hc)))
      intro c hc
      rcases (List.mem_orderedInsert iscoreRel).mp hc with rfl | hct
      · exact ⟨le_of_lt hlt, fun he => absurd he.symm (ne_of_lt hlt)⟩
      · exact hb c hct

theorem pairwise_stable_insertionSort :
    ∀ (l : List IScored), l.Pairwise (fun a b => a.idx < b.idx) →
      (List.insertionSort iscoreRel l).Pairwise stableRel
  | [], _ => List.Pairwise.nil
  | x :: t, hP => by
    simp only [List.insertionSort]
    obtain ⟨hx, ht⟩ := List.pairwise_cons.mp hP
    refine pairwise_stable_orderedInsert x _
      (pairwise_stable_insertionSort t ht) ?_
    intro b hb
    exact hx b ((List.mem_insertionSort iscoreRel).mp hb)

theorem map_toScored_orderedInsert (x : IScored) :
    ∀ (l : List IScored),
      (List.orderedInsert iscoreRel x l).map toScored =
        List.orderedInsert scoreRel (toScored x) (l.map toScored)
  | [] => rfl
  | b :: t => by
    simp only [List.orderedInsert, List.map_cons]
    by_cases h : iscoreRel x b
    · rw [if_pos h, if_pos (show scoreRel (toScored x) (toScored b) from h)]
      simp
    · rw [if_neg h, if_neg (show ¬ scoreRel (toScored x) (toScored b) from h)]
      simp only [List.map_cons, map_toScored_orderedInsert x t]

theorem map_toScored_insertionSort :
    ∀ (l : List IScored),
      (List.insertionSort iscoreRel l).map toScored =
        List.insertionSort scoreRel (l.map toScored)
  | [] => rfl
  | x :: t => by
    simp only [List.insertionSort, List.map_cons]
    rw [map_toScored_orderedInsert, map_toScored_insertionSort t]

theorem map_toScored_enumFrom (q : FilterQuery) :
    ∀ (l : List Product) (n : Nat),
      ((List.enumFrom n l).filterMap (fun ip =>
        if 0 < (scoreCounts q ip.2).1 then
          some (⟨ip.1, ip.2, match_percentage q ip.2⟩ : IScored)
        else none)).map toScored = scoredResults l q
  | [], _ => rfl
  | p :: ps, n => by
    simp only [List.enumFrom, scoredResults, List.filterMap_cons]
    by_cases hc : 0 < (scoreCounts q p).1
    · simp only [hc, if_pos, List.map_cons]
      rw [map_toScored_enumFrom q ps (n + 1)]
      simp [scoredResults, toScored]
    · simp only [hc, if_neg, ite_false]
      rw [map_toScored_enumFrom q ps (n + 1)]
      simp [scoredResults]

theorem map_toScored_iscored (products : List Product) (q : FilterQuery) :
    (iscoredResults products q).map toScored = scoredResults products q :=
  map_toScored_enumFrom q products 0

/-- C3: the output of `filter_products` is sorted by non-increasing match
score, and equal scores keep catalog order (stable tie-break). Stated via
the index-annotated pipeline `filterProductsIdx`: its entries are pairwise
`stableRel` (later entries have no larger percentage, and equal
percentages have strictly increasing catalog indices), and projecting the
annotated pipeline to products is exactly `filter_products`. -/
theorem filter_sorted_stable (products : List Product) (q : FilterQuery)
    (limit : Nat) :
    (filterProductsIdx products q limit).Pairwise stableRel ∧
      (filterProductsIdx products q limit).map (fun a => a.product) =
        filter_products products q limit := by
  constructor
  · refine List.Pairwise.sublist (List.take_sublist _ _) ?_
    exact pairwise_stable_insertionSort _ (pairwise_idx_iscored products q)
  · unfold filterProductsIdx filter_products
    rw [show (fun a : IScored => a.product) =
        Scored.product ∘ toScored from rfl, ← List.map_map, List.map_take,
      map_toScored_insertionSort, map_toScored_iscored]

/-! ## Agent orchestration -/

theorem agent_node_outputs (stub : LLMStub) (st : AgentState) :
    (agent_node stub st).last_tool_outputs = st.last_tool_outputs := by
  unfold agent_node
  cases stub (toGeminiMessages st.messages) with
  | error e => rfl
  | ok reply =>
    obtain ⟨text, calls⟩ := reply
    cases calls <;> rfl

theorem agent_node_error (stub : LLMStub) (st : AgentState) :
    (agent_node stub st).error = st.error := by
  unfold agent_node
  cases stub (toGeminiMessages st.messages) with
  | error e => rfl
  | ok reply =>
    obtain ⟨text, calls⟩ := reply
    cases calls <;> rfl

theorem should_continue_iff (st : AgentState) :
    should_continue st = true ↔
      (st.error = none ∧ st.current_tool.isSome ∧
        st.last_tool_outputs.length < 3) := by
  cases herr : st.error with
  | some e => simp [should_continue, herr]
  | none => simp [should_continue, herr]

theorem run_loop_of_error (stub : LLMStub) (reg : List ToolDef)
    (st : AgentState) (h : st.error.isSome = true) :
    ∀ (fuel acts : Nat), run_loop stub reg fuel st acts = (st, acts)
  | 0, acts => rfl
  | fuel + 1, acts => by
    have hsc : should_continue st = false := by
      unfold should_continue
      simp [h]
    simp [run_loop, hsc]

theorem run_loop_stop (stub : LLMStub) (reg : List ToolDef)
    (st : AgentState) (h : should_continue st = false) :
    ∀ (fuel acts : Nat), run_loop stub reg fuel st acts = (st, acts)
  | 0, acts => rfl
  | fuel + 1, acts => by simp [run_loop, h]

theorem run_loop_acts_le (stub : LLMStub) (reg : List ToolDef) :
    ∀ (fuel : Nat) (st : AgentState) (acts : Nat),
      st.last_tool_outputs.length ≤ 3 →
      (run_loop stub reg fuel st acts).2 ≤
        acts + (3 - st.last_tool_outputs.length)
  | 0, st, acts, _ => by simp [run_loop]
  | fuel + 1, st, acts, hlen => by
    by_cases hc : should_continue st
    · obtain ⟨herr, hct, hlt⟩ := (should_continue_iff st).mp hc
      obtain ⟨ct, hcteq⟩ := Option.isSome_iff_exists.mp hct
      have hred : run_loop stub reg (fuel + 1) st acts =
          run_loop stub reg fuel (agent_node stub (tool_node reg st))
            (acts + 1) := by
        simp [run_loop, hc]
      rw [hred]
      cases hfind : reg.find? (fun t => t.name == ct.name) with
      | some t =>
        have hlen' :
            (agent_node stub (tool_node reg st)).last_tool_outputs.length =
              st.last_tool_outputs.length + 1 := by
          rw [agent_node_outputs]
          simp [tool_node, hcteq, hfind]
        have hrec := run_loop_acts_le stub reg fuel
          (agent_node stub (tool_node reg st)) (acts + 1) (by omega)
        omega
      | none =>
        have herr' :
            (agent_node stub (tool_node reg st)).error.isSome = true := by
          rw [agent_node_error]
          simp [tool_node, hcteq, hfind]
        rw [run_loop_of_error stub reg _ herr' fuel (acts + 1)]
        simp only []
        omega
    · simp [run_loop, hc]

/-- C1: for every run of the orchestration loop (any collaborator stub,
any registry, any fuel, any history — including a stub that requests a
tool at every reasoning step), at most 3 ACT transitions occur; and the
router sends control to the tool node exactly when no error is set, a
pending tool call exists and fewer than 3 invocation records have been
appended, otherwise it terminates the run. -/
theorem loop_at_most_three_acts :
    (∀ (stub : LLMStub) (reg : List ToolDef) (fuel : Nat)
       (history : List Message),
       (run_graph stub reg fuel history).2 ≤ 3) ∧
    (∀ st : AgentState, should_continue st = true ↔
       (st.error = none ∧ st.current_tool.isSome ∧
         st.last_tool_outputs.length < 3)) := by
  refine ⟨?_, should_continue_iff⟩
  intro stub reg fuel history
  unfold run_graph
  have h0 :
      (agent_node stub (initialState history)).last_tool_outputs.length =
        0 := by
    rw [agent_node_outputs]
    rfl
  have h := run_loop_acts_le stub reg fuel
    (agent_node stub (initialState history)) 0 (by omega)
  omega

/-- C4: whenever the reasoning step extracts at least one tool-call
request, exactly the first request becomes the pending `current_tool`,
and the appended assistant turn carries the full requested list. -/
theorem first_tool_call_pending (stub : LLMStub) (st : AgentState)
    (text : String) (c : ToolCall) (rest : List ToolCall)
    (h : stub (toGeminiMessages st.messages) = .ok ⟨text, c :: rest⟩) :
    (agent_node stub st).current_tool = some c ∧
    (agent_node stub st).messages = st.messages ++
      [{ role := Role.assistant, content := text,
         tool_calls := c :: rest }] := by
  unfold agent_node
  rw [h]
  exact ⟨rfl, rfl⟩

/-- Witness for C4: a stub requesting one tool call produces that call as
pending and an assistant turn carrying the list. -/
theorem first_tool_call_pending_witness :
    (agent_node demoStubToolCall (initialState [demoUserMsg])).current_tool =
        some demoToolCall ∧
    (agent_node demoStubToolCall (initialState [demoUserMsg])).messages =
      [demoUserMsg] ++
        [{ role := Role.assistant, content := "",
           tool_calls := [demoToolCall] }] :=
  first_tool_call_pending demoStubToolCall (initialState [demoUserMsg]) ""
    demoToolCall [] rfl

/-- Counterexample to C5 as stated: at a concrete state whose pending tool
names no registry entry, the dispatch appends no (error) tool-turn to the
conversation, and the state's error field is set (the run will terminate
with that error rather than reasoning on unimpeded). -/
theorem tool_not_found_claim_counterexample :
    ¬ ((tool_node demoReg demoPendingState).messages.length =
          demoPendingState.messages.length + 1 ∧
       (tool_node demoReg demoPendingState).error = none) := by
  intro h
  have h2 := h.2
  rw [show (tool_node demoReg demoPendingState).error =
      some (toolNotFoundText "vibe_check") from rfl] at h2
  cases h2

/-- C5 amended: when the pending tool call names a tool absent from the
registry, `tool_node` appends no turn and records no invocation; it sets
the state's error field to the tool-not-found message and clears the
pending tool. The unconditional edge still runs one more reasoning step,
but the router then halts the run (the error persists through
`agent_node`), so the error surfaces in the structured result instead of
reasoning continuing. -/
theorem tool_not_found_sets_error (reg : List ToolDef) (st : AgentState)
    (ct : ToolCall) (stub : LLMStub)
    (hct : st.current_tool = some ct)
    (hfind : reg.find? (fun t => t.name == ct.name) = none) :
    (tool_node reg st).messages = st.messages ∧
    (tool_node reg st).last_tool_outputs = st.last_tool_outputs ∧
    (tool_node reg st).error = some (toolNotFoundText ct.name) ∧
    (tool_node reg st).current_tool = none ∧
    should_continue (agent_node stub (tool_node reg st)) = false := by
  have ht : tool_node reg st =
      { st with
        error := some (toolNotFoundText ct.name),
        current_tool := none } := by
    unfold tool_node
    rw [hct]
    simp only [hfind]
  refine ⟨by rw [ht], by rw [ht], by rw [ht], by rw [ht], ?_⟩
  have herr : (agent_node stub (tool_node reg st)).error =
      some (toolNotFoundText ct.name) := by
    rw [agent_node_error, ht]
  unfold should_continue
  rw [herr]
  simp

/-- Witness for the amended C5 at the concrete unknown-tool state. -/
theorem tool_not_found_sets_error_witness :
    (tool_node demoReg demoPendingState).messages =
        demoPendingState.messages ∧
    (tool_node demoReg demoPendingState).last_tool_outputs =
        demoPendingState.last_tool_outputs ∧
    (tool_node demoReg demoPendingState).error =
        some (toolNotFoundText demoToolCall.name) ∧
    (tool_node demoReg demoPendingState).current_tool = none ∧
    should_continue
      (agent_node demoStubToolCall (tool_node demoReg demoPendingState)) =
      false :=
  tool_not_found_sets_error demoReg demoPendingState demoToolCall
    demoStubToolCall rfl rfl

theorem filter_getLast_append (l : List Message) (m : Message)
    (hm : (m.role == Role.assistant) = true) :
    ((l ++ [m]).filter (fun x => x.role == Role.assistant)).getLast? =
      some m := by
  rw [List.filter_append]
  simp [List.filter, hm]

/-- C6: the synchronous entry point returns a structured result for every
input history even when the collaborator call throws at every reasoning
step: the thrown exception is caught and replaced by the fixed error
text, which becomes the response, with an empty tool-output list and the
error field present (unset, since the inner handler does not populate
it). -/
theorem process_never_raises (stub : LLMStub) (reg : List ToolDef)
    (history : List Message)
    (hthrow : ∀ gm, ∃ e, stub gm = Except.error e) :
    process stub reg history =
      { response := generateErrorText, tool_outputs := [],
        error := none } := by
  obtain ⟨e, he⟩ := hthrow (toGeminiMessages history)
  have hag : agent_node stub (initialState history) =
      { initialState history with
        messages := history ++
          [{ role := Role.assistant, content := generateErrorText }],
        current_tool := none } := by
    unfold agent_node
    rw [show (initialState history).messages = history from rfl, he]
  have hsc : should_continue (agent_node stub (initialState history)) =
      false := by
    rw [hag]
    simp [should_continue, initialState]
  have hrun : (run_graph stub reg recursionLimit history).1 =
      { initialState history with
        messages := history ++
          [{ role := Role.assistant, content := generateErrorText }],
        current_tool := none } := by
    unfold run_graph
    rw [run_loop_stop stub reg _ hsc recursionLimit 0, hag]
  have hlast := filter_getLast_append history
    ({ role := Role.assistant, content := generateErrorText } : Message) rfl
  simp only [process, hrun, initialState, hlast]

/-- Witness for C6: the always-throwing stub at a concrete history. -/
theorem process_never_raises_witness :
    process demoThrowStub demoReg [demoUserMsg] =
      { response := generateErrorText, tool_outputs := [],
        error := none } :=
  process_never_raises demoThrowStub demoReg [demoUserMsg]
    (fun _ => ⟨"LLM unavailable", rfl⟩)

/-! ## Streaming adapter -/

theorem completion_not_mem_chunkEvents (c : NodeChunk) :
    SEvent.completion ∉ chunkEvents c := by
  unfold chunkEvents
  cases hm : c.msgs.getLast? with
  | none => cases he : c.err <;> simp
  | some m =>
    cases he : c.err <;>
      by_cases h1 : (m.role == Role.assistant && m.content != "") = true <;>
        by_cases h2 : (m.role == Role.tool) = true <;>
          simp [h1, h2]

theorem stream_ok_shape :
    ∀ (chunks : List (Except String NodeChunk)),
      (∀ c ∈ chunks, chunkOk c = true) →
      ∃ evs, process_stream_events chunks = evs ++ [SEvent.completion] ∧
        SEvent.completion ∉ evs
  | [], _ => ⟨[], rfl, by simp⟩
  | .ok c :: rest, h => by
    obtain ⟨evs, heq, hnm⟩ := stream_ok_shape rest
      (fun x hx => h x (List.mem_cons_of_mem _ hx))
    refine ⟨chunkEvents c ++ evs, ?_, ?_⟩
    · simp [process_stream_events, heq]
    · intro hmem
      rcases List.mem_append.mp hmem with h1 | h2
      · exact completion_not_mem_chunkEvents c h1
      · exact hnm h2
  | .error e :: rest, h => by
    have := h (.error e) (List.mem_cons_self _ _)
    simp [chunkOk] at this

theorem stream_error_shape :
    ∀ (chunks : List (Except String NodeChunk)),
      (∃ x ∈ chunks, chunkOk x = false) →
      (process_stream_events chunks).count SEvent.completion = 0 ∧
      ∃ e evs, process_stream_events chunks = evs ++ [SEvent.error e]
  | [], h => by
    obtain ⟨x, hx, -⟩ := h
    cases hx
  | .error e :: rest, _ => by
    refine ⟨?_, e, [], rfl⟩
    simp [process_stream_events, List.count_cons]
  | .ok c :: rest, h => by
    obtain ⟨x, hx, hxf⟩ := h
    have hxr : x ∈ rest := by
      rcases List.mem_cons.mp hx with rfl | h'
      · simp [chunkOk] at hxf
      · exact h'
    obtain ⟨hcount, e, evs, heq⟩ := stream_error_shape rest ⟨x, hxr, hxf⟩
    constructor
    · have hzero : (chunkEvents c).count SEvent.completion = 0 :=
        List.count_eq_zero.mpr (completion_not_mem_chunkEvents c)
      simp [process_stream_events, List.count_append, hcount, hzero]
    · exact ⟨e, chunkEvents c ++ evs, by simp [process_stream_events, heq]⟩

/-- Counterexample to C9 as stated: a streaming run whose body raises
before any chunk is processed emits a single error event and no
completion event at all, so "exactly one completion event on every
execution path, including when an exception occurs" is false. -/
theorem stream_completion_counterexample :
    ¬ ((process_stream_events [Except.error "boom"]).count
        SEvent.completion = 1) := by
  decide

/-- C9 amended: a streaming run whose body raises no exception emits
exactly one completion event, as its final event (so any error events
precede it); a run interrupted by an exception ends with a single
trailing error event and emits no completion event. -/
theorem stream_event_shape (chunks : List (Except String NodeChunk)) :
    ((∀ c ∈ chunks, chunkOk c = true) →
       ∃ evs, process_stream_events chunks = evs ++ [SEvent.completion] ∧
         SEvent.completion ∉ evs) ∧
    ((∃ x ∈ chunks, chunkOk x = false) →
       (process_stream_events chunks).count SEvent.completion = 0 ∧
       ∃ e evs, process_stream_events chunks = evs ++ [SEvent.error e]) :=
  ⟨stream_ok_shape chunks, stream_error_shape chunks⟩

/-- Witness for the amended C9 on a concrete one-chunk run. -/
theorem stream_event_shape_witness :
    ∃ evs, process_stream_events [Except.ok ⟨[], none⟩] =
        evs ++ [SEvent.completion] ∧ SEvent.completion ∉ evs :=
  (stream_event_shape [Except.ok ⟨[], none⟩]).1 (by decide)

end VibeAgent
